import Mathlib

/-!
Verification of the terminal Conway's-Game-of-Life program (`conway.c`).

The C program keeps a grid of `rows × cols` cells, each cell one character:
`'#'` for an alive cell, `'-'` for a dead one.  Each row is stored as a
NUL-terminated C string of `cols` characters.  A grid is embedded as a
`List (List Char)`: one inner list per row, holding the row's `cols`
characters (the bytes before the terminating NUL).  A file is embedded as a
`List Char` (its byte contents); a file that fails to open is `none`.
-/

abbrev Grid := List (List Char)

/-- Reading `grid[r][c]`; `none` models an out-of-bounds access. -/
def readCell (g : Grid) (r c : Nat) : Option Char :=
  (g[r]?).bind (fun row => row[c]?)

/-- Model of `init_grid`: allocate `rows` rows of `cols` cells, every cell dead
(`'-'`); each row also gets a terminating NUL, implicit in the embedding. -/
def init_grid (rows cols : Nat) : Grid :=
  List.replicate rows (List.replicate cols '-')

/-- The test `grid[r][c] == '#'` that the C code performs after checking
bounds. -/
def cell_alive (g : Grid) (r c : Nat) : Bool :=
  match readCell g r c with
  | some ch => ch == '#'
  | none => false

/-- The eight `(dr, dc)` offsets visited by the two loops of
`count_neighbors`, in loop order; `(0, 0)` is skipped by the `continue`. -/
def neighbor_offsets : List (Int × Int) :=
  [(-1, -1), (-1, 0), (-1, 1), (0, -1), (0, 1), (1, -1), (1, 0), (1, 1)]

/-- The bounds test `nr >= 0 && nr < rows && nc >= 0 && nc < cols`. -/
def in_bounds (rows cols : Nat) (nr nc : Int) : Bool :=
  0 ≤ nr && nr < (rows : Int) && 0 ≤ nc && nc < (cols : Int)

/-- Model of `count_neighbors`: how many of the in-bounds Moore neighbors of
`(r, c)` hold `'#'`. -/
def count_neighbors (rows cols : Nat) (g : Grid) (r c : Int) : Nat :=
  neighbor_offsets.countP (fun d =>
    in_bounds rows cols (r + d.1) (c + d.2) &&
    cell_alive g (r + d.1).toNat (c + d.2).toNat)

/-- The body of the first double loop of `update_generation`: the value
written to `next_grid[i][j]`. -/
def next_cell_value (rows cols : Nat) (g : Grid) (i j : Nat) : Char :=
  let neighbors := count_neighbors rows cols g (i : Int) (j : Int)
  if cell_alive g i j then
    if neighbors == 2 || neighbors == 3 then '#' else '-'
  else
    if neighbors == 3 then '#' else '-'

/-- Model of `update_generation`: fill `next_grid` from `grid`, then copy it back;
the result is the new `grid`. -/
def update_generation (rows cols : Nat) (g : Grid) : Grid :=
  (List.range rows).map (fun i =>
    (List.range cols).map (fun j => next_cell_value rows cols g i j))

/-- The bytes `"%s"` prints for one row: the row's characters up to the
first NUL (rows of reachable grids never contain a NUL byte). -/
def cstr_bytes (row : List Char) : List Char :=
  row.takeWhile (fun ch => ch != Char.ofNat 0)

/-- Model of `save_grid_to_file`, success path: the byte contents written to the
file — for each `i < rows`, `fprintf(fp, "%s\n", grid[i])`.  The grid
always has exactly `rows` rows. -/
def save_grid_to_file (rows : Nat) (g : Grid) : List Char :=
  ((g.take rows).map (fun row => cstr_bytes row ++ ['\n'])).flatten

/-- Model of `fgets(buffer, 1024, fp)`, which stores at most `1023` characters plus
a NUL: consume characters up to and including a newline, until `cap`
characters have been read, or until end of input; return the characters
read and the remaining input. -/
def fgets_split : Nat → List Char → List Char × List Char
  | _, [] => ([], [])
  | 0, rest => ([], rest)
  | cap + 1, ch :: rest =>
    if ch = '\n' then ([ch], rest)
    else
      let p := fgets_split cap rest
      (ch :: p.1, p.2)

/-- The newline strip in the import loop:
`if (len > 0 && buffer[len-1] == '\n') { buffer[len-1] = '\0'; len--; }` -/
def strip_newline (ln : List Char) : List Char :=
  if ln.getLast? = some '\n' then ln.dropLast else ln

/-- The inner column loop of the import: for each `j < cols`, a `'#'`
within the line stays `'#'`, every other in-line byte and every position
at or beyond the line length becomes `'-'`. -/
def parse_row (cols : Nat) (ln : List Char) : List Char :=
  (List.range cols).map (fun j =>
    match (ln[j]?) with
    | some ch => if ch = '#' then '#' else '-'
    | none => '-')

/-- The row loop of the import: one `fgets` per row; a NULL return (end of
input) breaks out of the loop, leaving the remaining rows of the grid
untouched.  The fuel is `rows`; the grid always has exactly `rows` rows. -/
def import_go (cols : Nat) : Nat → Grid → List Char → Grid
  | 0, g, _ => g
  | _ + 1, [], _ => []
  | fuel + 1, row :: rest, content =>
    if content = [] then row :: rest
    else
      let p := fgets_split 1023 content
      parse_row cols (strip_newline p.1) :: import_go cols fuel rest p.2

/-- The import entry point; `none` models `fopen` failing, in which case
the error message is shown (the returned flag; displayed for about two
seconds) and the grid is left untouched. -/
def import_grid_from_file (rows cols : Nat) (g : Grid) (file : Option (List Char)) :
    Grid × Bool :=
  match file with
  | none => (g, true)
  | some content => (import_go cols rows g content, false)

/-- Startup from `main`: `init_grid`, then the
`argc >= 3 && strcmp(argv[1], "--import") == 0` gate and the import.
`fs` maps a path to the file's contents, or `none` when the file cannot be
opened. -/
def startup_grid (rows cols : Nat) (argv : List String)
    (fs : String → Option (List Char)) : Grid :=
  let g := init_grid rows cols
  if 3 ≤ argv.length ∧ argv[1]? = some "--import" then
    match argv[2]? with
    | some path => (import_grid_from_file rows cols g (fs path)).1
    | none => g
  else g

/-- The mouse toggle from the edit loop: flip `grid[y][x]` between `'-'`
and `'#'`.  The `none` branches model out-of-bounds accesses; the driver
never reaches them, since its bounds test runs first. -/
def toggle_cell (g : Grid) (y x : Nat) : Grid :=
  match (g[y]?) with
  | some row =>
    match (row[x]?) with
    | some ch => g.set y (row.set x (if ch = '-' then '#' else '-'))
    | none => g
  | none => g

/-- The edit-phase mouse handler: the gate
`event.y >= 0 && event.y < rows && event.x >= 0 && event.x < cols`, then
the toggle; out-of-range clicks are ignored. -/
def handle_mouse (rows cols : Nat) (g : Grid) (y x : Int) : Grid :=
  if 0 ≤ y ∧ y < (rows : Int) ∧ 0 ≤ x ∧ x < (cols : Int) then
    toggle_cell g y.toNat x.toNat
  else g

/-- A sequence of edit-phase toggles, applied left to right. -/
def apply_toggles (g : Grid) (ops : List (Nat × Nat)) : Grid :=
  ops.foldl (fun h p => toggle_cell h p.1 p.2) g

/-- The two instruction strings drawn on the status row during the run
phase (named rather than spelled out). -/
inductive Msg
  | running
  | pausedText
  deriving DecidableEq

/-- The mutable state of the run loop. -/
structure RunState where
  paused : Bool
  g : Grid
  deriving DecidableEq

/-- What one iteration of the run loop does. -/
inductive TickResult
  | quit
  | cont (s : RunState) (drawn : Msg)
  deriving DecidableEq

/-- One tick of the run loop.  `ev` is the one `getch()` result consumed
this tick: `some c` a character key, `none` no pending input (`ERR`) or a
non-character event.  `'q'` breaks before any stepping or drawing; `'p'`
flips `paused`; an unpaused tick steps one generation and redraws, a
paused tick only redraws. -/
def run_tick (rows cols : Nat) (s : RunState) (ev : Option Char) : TickResult :=
  if ev = some 'q' then .quit
  else
    let paused := if ev = some 'p' then !s.paused else s.paused
    if !paused then .cont ⟨paused, update_generation rows cols s.g⟩ .running
    else .cont ⟨paused, s.g⟩ .pausedText

/-- The run loop over a finite stream of per-tick `getch` results; returns
the state when the loop breaks on `'q'`, or when the modelled input stream
is exhausted. -/
def run_loop (rows cols : Nat) (s : RunState) : List (Option Char) → RunState
  | [] => s
  | ev :: evs =>
    match run_tick rows cols s ev with
    | .quit => s
    | .cont s2 _ => run_loop rows cols s2 evs

/-- The grid has exactly `R` rows of exactly `C` cells each. -/
def dims (g : Grid) (R C : Nat) : Prop :=
  g.length = R ∧ ∀ row ∈ g, row.length = C

/-- Every cell holds one of the two cell characters. -/
def alphabet_inv (g : Grid) : Prop :=
  ∀ row ∈ g, ∀ ch ∈ row, ch = '#' ∨ ch = '-'

/-- The representation invariant of reachable grids: `R` rows, each a
NUL-terminated string of exactly `C` characters over `{'#', '-'}`. -/
def wf (R C : Nat) (g : Grid) : Prop :=
  dims g R C ∧ alphabet_inv g

/-- Spec side: the Moore 3-by-3 box centered on `(r, c)`. -/
def moore_box (r c : Int) : Finset (Int × Int) :=
  Finset.Icc (r - 1) (r + 1) ×ˢ Finset.Icc (c - 1) (c + 1)

/-- Written from the spec's words: the count of `Alive` cells among the
up-to-eight Moore neighbors of `(r, c)` that lie within bounds; positions
outside the grid contribute nothing. -/
def spec_neighbor_count (R C : Nat) (g : Grid) (r c : Int) : Nat :=
  (((moore_box r c).erase (r, c)).filter (fun p =>
    0 ≤ p.1 ∧ p.1 < (R : Int) ∧ 0 ≤ p.2 ∧ p.2 < (C : Int) ∧
    readCell g p.1.toNat p.2.toNat = some '#')).card

/-- Spec side: cut a byte sequence into lines at each newline; a trailing
unterminated fragment counts as a final line. -/
def split_lines : List Char → List (List Char)
  | [] => []
  | ch :: rest =>
    if ch = '\n' then [] :: split_lines rest
    else
      match split_lines rest with
      | [] => [[ch]]
      | l :: ls => (ch :: l) :: ls

/-- How many lines the import loop consumes (mirrors `import_go`). -/
def consumed_lines : Nat → List Char → Nat
  | 0, _ => 0
  | _, [] => 0
  | fuel + 1, content => consumed_lines fuel (fgets_split 1023 content).2 + 1

/-! ### Basic lemmas about the embedding -/

theorem readCell_init (R C r c : Nat) (hr : r < R) (hc : c < C) :
    readCell (init_grid R C) r c = some '-' := by
  simp [readCell, init_grid, List.getElem?_replicate, hr, hc]

theorem cell_alive_iff (g : Grid) (r c : Nat) :
    cell_alive g r c = true ↔ readCell g r c = some '#' := by
  cases h : readCell g r c <;> simp [cell_alive, h]

theorem readCell_exists_of_dims (g : Grid) (R C r c : Nat) (hg : dims g R C)
    (hr : r < R) (hc : c < C) : ∃ ch, readCell g r c = some ch := by
  obtain ⟨hlen, hrow⟩ := hg
  have hr' : r < g.length := by omega
  have hrowmem : g[r] ∈ g := List.getElem_mem hr'
  have hclen : c < g[r].length := by rw [hrow _ hrowmem]; exact hc
  exact ⟨g[r][c], by simp [readCell, List.getElem?_eq_getElem, hr', hclen]⟩

theorem length_toggle (g : Grid) (y x : Nat) :
    (toggle_cell g y x).length = g.length := by
  unfold toggle_cell
  split
  · split
    · simp
    · rfl
  · rfl

theorem readCell_toggle_self (g : Grid) (y x : Nat) (row : List Char) (ch : Char)
    (hy : g[y]? = some row) (hx : row[x]? = some ch) :
    readCell (toggle_cell g y x) y x = some (if ch = '-' then '#' else '-') := by
  have hylen : y < g.length := by
    rcases List.getElem?_eq_some.mp hy with ⟨h, _⟩; exact h
  have hxlen : x < row.length := by
    rcases List.getElem?_eq_some.mp hx with ⟨h, _⟩; exact h
  simp only [toggle_cell, hy, hx, readCell]
  rw [List.getElem?_set_eq_of_lt _ hylen, Option.some_bind,
    List.getElem?_set_eq_of_lt _ hxlen]

theorem readCell_toggle_other (g : Grid) (y x r c : Nat)
    (hne : (y, x) ≠ (r, c)) :
    readCell (toggle_cell g y x) r c = readCell g r c := by
  cases hy : g[y]? with
  | none => simp only [toggle_cell, hy]
  | some row =>
    cases hx : row[x]? with
    | none => simp only [toggle_cell, hy, hx]
    | some ch =>
      simp only [toggle_cell, hy, hx, readCell]
      by_cases hyr : y = r
      · subst hyr
        have hxc : x ≠ c := by
          intro h; exact hne (by rw [h])
        have hylen : y < g.length := by
          rcases List.getElem?_eq_some.mp hy with ⟨h, _⟩; exact h
        rw [List.getElem?_set_eq_of_lt _ hylen, hy, Option.some_bind,
          Option.some_bind, List.getElem?_set_ne hxc]
      · rw [List.getElem?_set_ne hyr]

/-! ### The representation invariant and its preservation -/

theorem wf_init (R C : Nat) : wf R C (init_grid R C) := by
  refine ⟨⟨by simp [init_grid], ?_⟩, ?_⟩
  · intro row hrow
    rw [List.eq_of_mem_replicate hrow]
    simp
  · intro row hrow ch hch
    rw [List.eq_of_mem_replicate hrow] at hch
    exact Or.inr (List.eq_of_mem_replicate hch)

theorem wf_toggle (R C : Nat) (g : Grid) (y x : Nat) (hg : wf R C g) :
    wf R C (toggle_cell g y x) := by
  obtain ⟨⟨hlen, hrows⟩, halpha⟩ := hg
  cases hy : g[y]? with
  | none => simpa only [toggle_cell, hy] using ⟨⟨hlen, hrows⟩, halpha⟩
  | some row =>
    cases hx : row[x]? with
    | none => simpa only [toggle_cell, hy, hx] using ⟨⟨hlen, hrows⟩, halpha⟩
    | some ch =>
      simp only [toggle_cell, hy, hx]
      have hrowmem : row ∈ g := by
        rcases List.getElem?_eq_some.mp hy with ⟨h, he⟩
        exact he ▸ List.getElem_mem h
      refine ⟨⟨by simpa using hlen, ?_⟩, ?_⟩
      · intro row2 h2
        rcases List.mem_or_eq_of_mem_set h2 with h3 | h3
        · exact hrows _ h3
        · subst h3; simp [hrows _ hrowmem]
      · intro row2 h2 ch2 hch2
        rcases List.mem_or_eq_of_mem_set h2 with h3 | h3
        · exact halpha _ h3 _ hch2
        · subst h3
          rcases List.mem_or_eq_of_mem_set hch2 with h4 | h4
          · exact halpha _ hrowmem _ h4
          · subst h4
            split <;> simp

theorem wf_handle_mouse (R C : Nat) (g : Grid) (y x : Int) (hg : wf R C g) :
    wf R C (handle_mouse R C g y x) := by
  unfold handle_mouse
  split
  · exact wf_toggle R C g _ _ hg
  · exact hg

theorem wf_update (R C : Nat) (g : Grid) : wf R C (update_generation R C g) := by
  refine ⟨⟨by simp [update_generation], ?_⟩, ?_⟩
  · intro row hrow
    simp only [update_generation, List.mem_map] at hrow
    obtain ⟨i, _, rfl⟩ := hrow
    simp
  · intro row hrow ch hch
    simp only [update_generation, List.mem_map] at hrow
    obtain ⟨i, _, rfl⟩ := hrow
    simp only [List.mem_map] at hch
    obtain ⟨j, _, rfl⟩ := hch
    simp only [next_cell_value]
    split_ifs <;> simp

theorem length_parse_row (cols : Nat) (ln : List Char) :
    (parse_row cols ln).length = cols := by
  simp [parse_row]

theorem alphabet_parse_row (cols : Nat) (ln : List Char) :
    ∀ ch ∈ parse_row cols ln, ch = '#' ∨ ch = '-' := by
  intro ch hch
  simp only [parse_row, List.mem_map] at hch
  obtain ⟨j, _, rfl⟩ := hch
  cases h : (ln[j]?) with
  | none => simp [h]
  | some c2 =>
    simp only [h]
    split <;> simp

theorem length_import_go (cols : Nat) :
    ∀ (fuel : Nat) (g : Grid) (content : List Char),
      (import_go cols fuel g content).length = g.length := by
  intro fuel
  induction fuel with
  | zero => intro g content; rfl
  | succ n ih =>
    intro g content
    cases g with
    | nil => rfl
    | cons row rest =>
      by_cases h : content = []
      · simp [import_go, h]
      · simp [import_go, h, ih]

theorem rows_import_go (C : Nat) :
    ∀ (fuel : Nat) (g : Grid) (content : List Char),
      (∀ row ∈ g, row.length = C ∧ ∀ ch ∈ row, ch = '#' ∨ ch = '-') →
      ∀ row ∈ import_go C fuel g content,
        row.length = C ∧ ∀ ch ∈ row, ch = '#' ∨ ch = '-' := by
  intro fuel
  induction fuel with
  | zero => intro g content hg; exact hg
  | succ n ih =>
    intro g content hg
    cases g with
    | nil => intro row h; simp [import_go] at h
    | cons r0 rest =>
      by_cases h : content = []
      · intro row hrow
        rw [import_go, if_pos h] at hrow
        exact hg row hrow
      · intro row hrow
        rw [import_go, if_neg h] at hrow
        rcases List.mem_cons.mp hrow with h2 | h2
        · subst h2
          exact ⟨length_parse_row _ _, alphabet_parse_row _ _⟩
        · exact ih rest _ (fun r hr => hg r (List.mem_cons_of_mem _ hr)) _ h2

theorem wf_import (R C : Nat) (g : Grid) (file : Option (List Char)) (hg : wf R C g) :
    wf R C (import_grid_from_file R C g file).1 := by
  obtain ⟨⟨hlen, hrows⟩, halpha⟩ := hg
  cases file with
  | none => exact ⟨⟨hlen, hrows⟩, halpha⟩
  | some content =>
    simp only [import_grid_from_file]
    have hl := length_import_go C R g content
    have hr := rows_import_go C R g content
      (fun row hrow => ⟨hrows row hrow, fun ch hch => halpha row hrow ch hch⟩)
    exact ⟨⟨by rw [hl, hlen], fun row hrow => (hr row hrow).1⟩,
      fun row hrow ch hch => (hr row hrow).2 ch hch⟩

theorem cstr_bytes_eq_self (row : List Char)
    (halpha : ∀ ch ∈ row, ch = '#' ∨ ch = '-') : cstr_bytes row = row := by
  apply List.takeWhile_eq_self_iff.mpr
  intro ch hch
  rcases halpha ch hch with h | h <;> subst h <;> decide

/-! ### The generation step against the spec's neighbor-count rule -/

theorem card_filter_insert {α : Type} [DecidableEq α] (p : α → Prop) [DecidablePred p]
    (x : α) (s : Finset α) (hx : x ∉ s) :
    ((insert x s).filter p).card = (if p x then 1 else 0) + (s.filter p).card := by
  rw [Finset.filter_insert]
  split
  · rw [Finset.card_insert_of_not_mem (fun h => hx (Finset.mem_of_mem_filter _ h))]
    omega
  · omega

theorem card_filter_singleton {α : Type} [DecidableEq α] (p : α → Prop) [DecidablePred p]
    (x : α) : (({x} : Finset α).filter p).card = if p x then 1 else 0 := by
  rw [Finset.filter_singleton]
  split <;> simp

theorem moore_box_erase (r c : Int) :
    (moore_box r c).erase (r, c) =
      {(r - 1, c - 1), (r - 1, c), (r - 1, c + 1), (r, c - 1),
       (r, c + 1), (r + 1, c - 1), (r + 1, c), (r + 1, c + 1)} := by
  ext p
  obtain ⟨a, b⟩ := p
  simp only [Finset.mem_erase, moore_box, Finset.mem_product, Finset.mem_Icc,
    Finset.mem_insert, Finset.mem_singleton, Prod.mk.injEq, ne_eq]
  constructor
  · rintro ⟨h1, ⟨h2, h3⟩, h4, h5⟩
    omega
  · intro h
    constructor
    · intro h2
      omega
    · omega

theorem count_neighbors_eq_spec (R C : Nat) (g : Grid) (r c : Int) :
    count_neighbors R C g r c = spec_neighbor_count R C g r c := by
  have h1 : (r - 1, c - 1) ∉ ({(r - 1, c), (r - 1, c + 1), (r, c - 1),
      (r, c + 1), (r + 1, c - 1), (r + 1, c), (r + 1, c + 1)} : Finset (Int × Int)) := by
    simp only [Finset.mem_insert, Finset.mem_singleton, Prod.mk.injEq]
    omega
  have h2 : (r - 1, c) ∉ ({(r - 1, c + 1), (r, c - 1),
      (r, c + 1), (r + 1, c - 1), (r + 1, c), (r + 1, c + 1)} : Finset (Int × Int)) := by
    simp only [Finset.mem_insert, Finset.mem_singleton, Prod.mk.injEq]
    omega
  have h3 : (r - 1, c + 1) ∉ (({(r, c - 1),
      (r, c + 1), (r + 1, c - 1), (r + 1, c), (r + 1, c + 1)}) : Finset (Int × Int)) := by
    simp only [Finset.mem_insert, Finset.mem_singleton, Prod.mk.injEq]
    omega
  have h4 : (r, c - 1) ∉ (({(r, c + 1), (r + 1, c - 1), (r + 1, c),
      (r + 1, c + 1)}) : Finset (Int × Int)) := by
    simp only [Finset.mem_insert, Finset.mem_singleton, Prod.mk.injEq]
    omega
  have h5 : (r, c + 1) ∉ (({(r + 1, c - 1), (r + 1, c),
      (r + 1, c + 1)}) : Finset (Int × Int)) := by
    simp only [Finset.mem_insert, Finset.mem_singleton, Prod.mk.injEq]
    omega
  have h6 : (r + 1, c - 1) ∉ (({(r + 1, c), (r + 1, c + 1)}) : Finset (Int × Int)) := by
    simp only [Finset.mem_insert, Finset.mem_singleton, Prod.mk.injEq]
    omega
  have h7 : (r + 1, c) ∉ (({(r + 1, c + 1)}) : Finset (Int × Int)) := by
    simp only [Finset.mem_singleton, Prod.mk.injEq]
    omega
  unfold spec_neighbor_count
  rw [moore_box_erase,
    card_filter_insert _ _ _ h1, card_filter_insert _ _ _ h2,
    card_filter_insert _ _ _ h3, card_filter_insert _ _ _ h4,
    card_filter_insert _ _ _ h5, card_filter_insert _ _ _ h6,
    card_filter_insert _ _ _ h7, card_filter_singleton]
  simp only [count_neighbors, neighbor_offsets, List.countP_cons, List.countP_nil,
    Bool.and_eq_true, decide_eq_true_eq, cell_alive_iff, in_bounds, and_assoc,
    sub_eq_add_neg, add_zero]
  omega

theorem readCell_update (R C : Nat) (g : Grid) (r c : Nat) (hr : r < R) (hc : c < C) :
    readCell (update_generation R C g) r c = some (next_cell_value R C g r c) := by
  simp [readCell, update_generation, List.getElem?_map, List.getElem?_range, hr, hc]

/-- C1: for every grid state, `update_generation` gives every cell `(r, c)`
its next value from the pre-step state alone: with `n` the number of
`Alive` (`'#'`) cells among the in-bounds Moore neighbors of `(r, c)`
(out-of-bounds positions contributing nothing), the new value is `'#'`
exactly when the cell is `'#'` and `n ∈ {2, 3}`, or the cell is not `'#'`
and `n = 3`.  The right-hand side mentions only the pre-step grid `g`, so
no new value can influence another new value within the same step. -/
theorem update_generation_follows_spec (R C : Nat) (g : Grid) (r c : Nat)
    (hr : r < R) (hc : c < C) :
    readCell (update_generation R C g) r c =
      some (if readCell g r c = some '#' then
              if spec_neighbor_count R C g (r : Int) (c : Int) = 2 ∨
                  spec_neighbor_count R C g (r : Int) (c : Int) = 3
                then '#' else '-'
            else
              if spec_neighbor_count R C g (r : Int) (c : Int) = 3
                then '#' else '-') := by
  rw [readCell_update R C g r c hr hc]
  congr 1
  simp only [next_cell_value, cell_alive_iff, Bool.or_eq_true, beq_iff_eq,
    count_neighbors_eq_spec]

/-- Witness for `update_generation_follows_spec` at the blinker's center. -/
theorem update_generation_follows_spec_witness :
    readCell (update_generation 3 3 [['-', '-', '-'], ['#', '#', '#'], ['-', '-', '-']]) 1 1 =
      some (if readCell [['-', '-', '-'], ['#', '#', '#'], ['-', '-', '-']] 1 1 = some '#' then
              if spec_neighbor_count 3 3 [['-', '-', '-'], ['#', '#', '#'], ['-', '-', '-']] (1 : Int) (1 : Int) = 2 ∨
                  spec_neighbor_count 3 3 [['-', '-', '-'], ['#', '#', '#'], ['-', '-', '-']] (1 : Int) (1 : Int) = 3
                then '#' else '-'
            else
              if spec_neighbor_count 3 3 [['-', '-', '-'], ['#', '#', '#'], ['-', '-', '-']] (1 : Int) (1 : Int) = 3
                then '#' else '-') :=
  update_generation_follows_spec 3 3 [['-', '-', '-'], ['#', '#', '#'], ['-', '-', '-']] 1 1
    (by decide) (by decide)

/-! ### Toggle parity -/

theorem readCell_apply_toggles :
    ∀ (ops : List (Nat × Nat)) (g : Grid) (r c : Nat) (ch : Char),
      readCell g r c = some ch → (ch = '#' ∨ ch = '-') →
      readCell (apply_toggles g ops) r c =
        some (if ops.count (r, c) % 2 = 0 then ch
              else if ch = '-' then '#' else '-') := by
  intro ops
  induction ops with
  | nil =>
    intro g r c ch hch _
    simpa [apply_toggles] using hch
  | cons p rest ih =>
    obtain ⟨y, x⟩ := p
    intro g r c ch hch halpha
    rw [show apply_toggles g ((y, x) :: rest) = apply_toggles (toggle_cell g y x) rest from rfl]
    by_cases hpc : (y, x) = (r, c)
    · obtain ⟨rfl, rfl⟩ := Prod.mk.inj hpc
      have hrc := hch
      rw [readCell] at hrc
      cases hy2 : g[y]? with
      | none => rw [hy2] at hrc; simp at hrc
      | some row =>
        rw [hy2, Option.some_bind] at hrc
        have htog := readCell_toggle_self g y x row ch hy2 hrc
        have hstep := ih (toggle_cell g y x) y x (if ch = '-' then '#' else '-') htog
          (by split <;> simp)
        by_cases hpar : rest.count (y, x) % 2 = 0
        · have h2 : ¬((rest.count (y, x) + 1) % 2 = 0) := by omega
          rw [hstep, List.count_cons_self, if_pos hpar, if_neg h2]
        · have h2 : (rest.count (y, x) + 1) % 2 = 0 := by omega
          rw [hstep, List.count_cons_self, if_neg hpar, if_pos h2]
          rcases halpha with rfl | rfl <;> decide
    · have hread := (readCell_toggle_other g y x r c hpc).trans hch
      rw [ih (toggle_cell g y x) r c ch hread halpha,
        List.count_cons_of_ne (Ne.symm hpc)]

/-- C5: starting from the freshly created all-dead grid, after any finite
sequence of edit-phase toggles at in-bounds coordinates, a cell is alive
(`'#'`) exactly when it was toggled an odd number of times. -/
theorem toggle_parity (R C : Nat) (ops : List (Nat × Nat)) (r c : Nat)
    (_hops : ∀ p ∈ ops, p.1 < R ∧ p.2 < C) (hr : r < R) (hc : c < C) :
    readCell (apply_toggles (init_grid R C) ops) r c =
      some (if ops.count (r, c) % 2 = 1 then '#' else '-') := by
  rw [readCell_apply_toggles ops (init_grid R C) r c '-'
    (readCell_init R C r c hr hc) (Or.inr rfl)]
  by_cases hpar : ops.count (r, c) % 2 = 0
  · have h2 : ¬(ops.count (r, c) % 2 = 1) := by omega
    rw [if_pos hpar, if_neg h2]
  · have h1 : ops.count (r, c) % 2 = 1 := by omega
    rw [if_neg hpar, if_pos h1]
    decide

/-- Witness for `toggle_parity`: on a 2-by-2 grid, after the four toggles
`(0,1), (1,1), (0,1), (0,0)`, cell `(0, 1)` was toggled twice and is dead. -/
theorem toggle_parity_witness :
    readCell (apply_toggles (init_grid 2 2) [(0, 1), (1, 1), (0, 1), (0, 0)]) 0 1 =
      some (if ([(0, 1), (1, 1), (0, 1), (0, 0)] : List (Nat × Nat)).count (0, 1) % 2 = 1
            then '#' else '-') :=
  toggle_parity 2 2 [(0, 1), (1, 1), (0, 1), (0, 0)] 0 1 (by decide) (by decide) (by decide)

instance (g : Grid) (R C : Nat) : Decidable (dims g R C) := by
  unfold dims; infer_instance

instance (g : Grid) : Decidable (alphabet_inv g) := by
  unfold alphabet_inv; infer_instance

instance (R C : Nat) (g : Grid) : Decidable (wf R C g) := by
  unfold wf; infer_instance

/-! ### The run phase -/

theorem run_loop_stops_at_quit (R C : Nat) :
    ∀ (es1 : List (Option Char)) (s : RunState) (es2 : List (Option Char)),
      some 'q' ∉ es1 →
      run_loop R C s (es1 ++ some 'q' :: es2) = run_loop R C s es1 := by
  intro es1
  induction es1 with
  | nil =>
    intro s es2 _
    simp [run_loop, run_tick]
  | cons e es ih =>
    intro s es2 h
    have he : e ≠ some 'q' := fun hq => h (by simp [hq])
    have hnotin : some 'q' ∉ es := fun hmem => h (List.mem_cons_of_mem _ hmem)
    cases htick : run_tick R C s e with
    | quit => simp only [List.cons_append, run_loop, htick]
    | cont s2 m =>
      simp only [List.cons_append, run_loop, htick]
      exact ih s2 es2 hnotin

/-- C6: each run-phase tick consumes exactly one `getch` result, and `'q'`
is checked at the start of the tick: a tick that reads `'q'` terminates
without stepping or redrawing, so once `'q'` is read the loop result is
the same as if the input had ended just before it — no generation is
computed at or after the `'q'` tick. -/
theorem quit_stops_loop (R C : Nat) (s : RunState) (es1 es2 : List (Option Char))
    (h : some 'q' ∉ es1) :
    run_tick R C s (some 'q') = TickResult.quit ∧
    run_loop R C s (es1 ++ some 'q' :: es2) = run_loop R C s es1 :=
  ⟨by simp [run_tick], run_loop_stops_at_quit R C es1 s es2 h⟩

/-- Witness for `quit_stops_loop` on a one-cell grid, one quiet tick before
the `'q'`. -/
theorem quit_stops_loop_witness :
    run_tick 1 1 ⟨false, [['-']]⟩ (some 'q') = TickResult.quit ∧
    run_loop 1 1 ⟨false, [['-']]⟩ ([none] ++ some 'q' :: [none]) =
      run_loop 1 1 ⟨false, [['-']]⟩ [none] :=
  quit_stops_loop 1 1 ⟨false, [['-']]⟩ [none] [none] (by decide)

/-- C7: while paused, no tick invokes `update_generation`: over any stretch
of ticks whose events are neither `'p'` nor `'q'` the grid and the paused
flag are unchanged, and each such tick only redraws with the paused
instruction string; a `'p'` tick resumes running (stepping that same
tick), and a `'q'` tick terminates. -/
theorem paused_ticks_preserve_grid (R C : Nat) (g : Grid) (es : List (Option Char))
    (h : ∀ e2 ∈ es, e2 ≠ some 'p' ∧ e2 ≠ some 'q')
    (e : Option Char) (hp : e ≠ some 'p') (hq : e ≠ some 'q') :
    run_loop R C ⟨true, g⟩ es = ⟨true, g⟩ ∧
    run_tick R C ⟨true, g⟩ e = TickResult.cont ⟨true, g⟩ Msg.pausedText ∧
    run_tick R C ⟨true, g⟩ (some 'p') =
      TickResult.cont ⟨false, update_generation R C g⟩ Msg.running ∧
    run_tick R C ⟨true, g⟩ (some 'q') = TickResult.quit := by
  have htick : ∀ e3 : Option Char, e3 ≠ some 'p' → e3 ≠ some 'q' →
      run_tick R C ⟨true, g⟩ e3 = TickResult.cont ⟨true, g⟩ Msg.pausedText := by
    intro e3 hp3 hq3
    simp [run_tick, hp3, hq3]
  refine ⟨?_, htick e hp hq, ?_, ?_⟩
  · induction es with
    | nil => rfl
    | cons e2 rest ih =>
      have h2 := h e2 (List.mem_cons_self e2 rest)
      simp only [run_loop, htick e2 h2.1 h2.2]
      exact ih (fun e3 h3 => h e3 (List.mem_cons_of_mem _ h3))
  · simp [run_tick]
  · simp [run_tick]

/-- Witness for `paused_ticks_preserve_grid`: two quiet paused ticks on a
one-cell alive grid, with a non-`'p'`/`'q'` key for the single-tick part. -/
theorem paused_ticks_preserve_grid_witness :
    run_loop 1 1 ⟨true, [['#']]⟩ [none, some 'x'] = ⟨true, [['#']]⟩ ∧
    run_tick 1 1 ⟨true, [['#']]⟩ (some 'x') =
      TickResult.cont ⟨true, [['#']]⟩ Msg.pausedText ∧
    run_tick 1 1 ⟨true, [['#']]⟩ (some 'p') =
      TickResult.cont ⟨false, update_generation 1 1 [['#']]⟩ Msg.running ∧
    run_tick 1 1 ⟨true, [['#']]⟩ (some 'q') = TickResult.quit :=
  paused_ticks_preserve_grid 1 1 [['#']] [none, some 'x'] (by decide)
    (some 'x') (by decide) (by decide)

/-! ### Import failure and startup -/

/-- C8: `--import` with a file that cannot be opened leaves the freshly
created grid untouched, so every cell is still dead, and the load-failure
message is shown (the error flag; the program displays it for about two
seconds); the error arises only from the failed open — importing any file
that opens succeeds without error. -/
theorem import_failure_leaves_grid_dead (R C : Nat) (path : String)
    (fs : String → Option (List Char)) (hfs : fs path = none)
    (r c : Nat) (hr : r < R) (hc : c < C) (g : Grid) (content : List Char) :
    startup_grid R C ["prog", "--import", path] fs = init_grid R C ∧
    readCell (startup_grid R C ["prog", "--import", path] fs) r c = some '-' ∧
    (import_grid_from_file R C (init_grid R C) (fs path)).2 = true ∧
    (import_grid_from_file R C g (some content)).2 = false := by
  have hstart : startup_grid R C ["prog", "--import", path] fs = init_grid R C := by
    simp [startup_grid, hfs, import_grid_from_file]
  refine ⟨hstart, ?_, ?_, rfl⟩
  · rw [hstart]
    exact readCell_init R C r c hr hc
  · rw [hfs]
    rfl

/-- Witness for `import_failure_leaves_grid_dead` with a file system on
which no file opens. -/
theorem import_failure_leaves_grid_dead_witness :
    startup_grid 1 1 ["prog", "--import", "missing"] (fun _ => none) = init_grid 1 1 ∧
    readCell (startup_grid 1 1 ["prog", "--import", "missing"] (fun _ => none)) 0 0 = some '-' ∧
    (import_grid_from_file 1 1 (init_grid 1 1) ((fun _ => none) "missing")).2 = true ∧
    (import_grid_from_file 1 1 [['#']] (some ['#'])).2 = false :=
  import_failure_leaves_grid_dead 1 1 "missing" (fun _ => none) rfl
    0 0 (by decide) (by decide) [['#']] ['#']

/-! ### Bounds safety -/

/-- C9: the embedded out-of-bounds (`none`) branches are unreachable for
the accesses the program performs: under the dimension invariant every
bounds-guarded read (the neighbor scan's guard and the mouse gate use the
same comparison) yields a cell, the mouse handler ignores out-of-range
clicks, and an in-bounds toggle reaches the write and flips the cell. -/
theorem grid_accesses_in_bounds (R C : Nat) (g : Grid) (hg : dims g R C)
    (y x : Int) (hout : ¬(0 ≤ y ∧ y < (R : Int) ∧ 0 ≤ x ∧ x < (C : Int)))
    (nr nc : Int) (hnr0 : 0 ≤ nr) (hnrR : nr < (R : Int))
    (hnc0 : 0 ≤ nc) (hncC : nc < (C : Int)) :
    readCell g nr.toNat nc.toNat ≠ none ∧
    handle_mouse R C g y x = g ∧
    readCell (toggle_cell g nr.toNat nc.toNat) nr.toNat nc.toNat =
      some (if readCell g nr.toNat nc.toNat = some '-' then '#' else '-') := by
  have h1 : nr.toNat < R := by omega
  have h2 : nc.toNat < C := by omega
  obtain ⟨ch, hch⟩ := readCell_exists_of_dims g R C _ _ hg h1 h2
  refine ⟨by rw [hch]; simp, by rw [handle_mouse, if_neg hout], ?_⟩
  have hy := hch
  rw [readCell] at hy
  cases hrow : g[nr.toNat]? with
  | none => rw [hrow] at hy; simp at hy
  | some row =>
    rw [hrow, Option.some_bind] at hy
    rw [readCell_toggle_self g _ _ row ch hrow hy, hch]
    simp

/-- Witness for `grid_accesses_in_bounds`: one-cell grid, the click at
`(-1, -1)` is ignored, the read and the toggle at `(0, 0)` land. -/
theorem grid_accesses_in_bounds_witness :
    readCell [['-']] (Int.toNat 0) (Int.toNat 0) ≠ none ∧
    handle_mouse 1 1 [['-']] (-1) (-1) = [['-']] ∧
    readCell (toggle_cell [['-']] (Int.toNat 0) (Int.toNat 0)) (Int.toNat 0) (Int.toNat 0) =
      some (if readCell [['-']] (Int.toNat 0) (Int.toNat 0) = some '-' then '#' else '-') :=
  grid_accesses_in_bounds 1 1 [['-']] (by decide) (-1) (-1) (by decide)
    0 0 (by decide) (by decide) (by decide) (by decide)

/-! ### The representation invariant, assembled -/

/-- C10: every operation that writes the grid — initialization, the
edit-phase toggle, the generation step, and the import — preserves the
invariant that each of the `R` rows is a NUL-terminated string of exactly
`C` characters over `{'#', '-'}`; under the invariant the `"%s"`
conversion of the save emits exactly the row's `C` cell characters. -/
theorem grid_invariant_preserved (R C : Nat) (g : Grid) (hg : wf R C g)
    (y x : Int) (file : Option (List Char)) (row : List Char) (hrow : row ∈ g) :
    wf R C (init_grid R C) ∧
    wf R C (handle_mouse R C g y x) ∧
    wf R C (update_generation R C g) ∧
    wf R C (import_grid_from_file R C g file).1 ∧
    cstr_bytes row = row ∧ row.length = C :=
  ⟨wf_init R C, wf_handle_mouse R C g y x hg, wf_update R C g,
    wf_import R C g file hg,
    cstr_bytes_eq_self row (hg.2 row hrow), hg.1.2 row hrow⟩

/-- Witness for `grid_invariant_preserved` on a one-cell alive grid. -/
theorem grid_invariant_preserved_witness :
    wf 1 1 (init_grid 1 1) ∧
    wf 1 1 (handle_mouse 1 1 [['#']] 0 0) ∧
    wf 1 1 (update_generation 1 1 [['#']]) ∧
    wf 1 1 (import_grid_from_file 1 1 [['#']] none).1 ∧
    cstr_bytes ['#'] = ['#'] ∧ (['#'] : List Char).length = 1 :=
  grid_invariant_preserved 1 1 [['#']] (by decide) 0 0 none ['#'] (by decide)

/-! ### Snapshot codec lemmas -/

theorem mem_of_getLast?_eq_some :
    ∀ {l : List Char} {a : Char}, l.getLast? = some a → a ∈ l := by
  intro l
  induction l with
  | nil => intro a h; simp [List.getLast?] at h
  | cons b t ih =>
    intro a h
    cases t with
    | nil =>
      simp [List.getLast?] at h
      simp [h]
    | cons c2 t2 =>
      rw [List.getLast?_cons_cons] at h
      exact List.mem_cons_of_mem _ (ih h)

theorem strip_newline_of_not_mem (ln : List Char) (h : '\n' ∉ ln) :
    strip_newline ln = ln := by
  rw [strip_newline]
  by_cases h2 : ln.getLast? = some '\n'
  · exact absurd (mem_of_getLast?_eq_some h2) h
  · rw [if_neg h2]

theorem strip_newline_concat (ln : List Char) :
    strip_newline (ln ++ ['\n']) = ln := by
  rw [strip_newline, if_pos (List.getLast?_concat ln), List.dropLast_concat]

theorem fgets_split_line :
    ∀ (ln : List Char) (cap : Nat) (rest : List Char), '\n' ∉ ln → ln.length < cap →
      fgets_split cap (ln ++ '\n' :: rest) = (ln ++ ['\n'], rest) := by
  intro ln
  induction ln with
  | nil =>
    intro cap rest _ hlen
    cases cap with
    | zero => omega
    | succ n => simp [fgets_split]
  | cons ch t ih =>
    intro cap rest hmem hlen
    cases cap with
    | zero => simp at hlen
    | succ n =>
      have hch : ch ≠ '\n' := fun h => hmem (by simp [h])
      have ht := ih n rest (fun h => hmem (List.mem_cons_of_mem _ h))
        (by simpa using hlen)
      simp only [List.cons_append, fgets_split, if_neg hch, List.append_eq, ht]

theorem fgets_split_exact :
    ∀ (ln : List Char) (rest : List Char), '\n' ∉ ln →
      fgets_split ln.length (ln ++ rest) = (ln, rest) := by
  intro ln
  induction ln with
  | nil =>
    intro rest _
    cases rest <;> rfl
  | cons ch t ih =>
    intro rest hmem
    have hch : ch ≠ '\n' := fun h => hmem (by simp [h])
    have ht := ih rest (fun h => hmem (List.mem_cons_of_mem _ h))
    simp only [List.length_cons, List.cons_append, fgets_split, if_neg hch, List.append_eq, ht]

theorem fgets_split_newline (cap : Nat) (rest : List Char) (h : 0 < cap) :
    fgets_split cap ('\n' :: rest) = (['\n'], rest) := by
  cases cap with
  | zero => omega
  | succ n => simp [fgets_split]

theorem parse_row_eq_self (C : Nat) (ln : List Char) (hlen : ln.length = C)
    (halpha : ∀ ch ∈ ln, ch = '#' ∨ ch = '-') : parse_row C ln = ln := by
  apply List.ext_getElem?
  intro j
  rw [parse_row, List.getElem?_map]
  by_cases hj : j < C
  · have hj2 : j < ln.length := by omega
    simp only [List.getElem?_range hj, Option.map_some', List.getElem?_eq_getElem hj2]
    rcases halpha _ (List.getElem_mem hj2) with h | h <;> simp [h]
  · have h1 : C ≤ j := by omega
    rw [List.getElem?_eq_none (by simpa using h1), List.getElem?_eq_none (by omega)]
    rfl

theorem parse_row_nil (C : Nat) : parse_row C [] = List.replicate C '-' := by
  rw [parse_row]
  simp only [List.getElem?_nil]
  rw [List.map_const', List.length_range]

theorem save_grid_to_file_eq (R : Nat) (g : Grid) (hlen : g.length = R)
    (halpha : ∀ row ∈ g, ∀ ch ∈ row, ch = '#' ∨ ch = '-') :
    save_grid_to_file R g = (g.map (fun row => row ++ ['\n'])).flatten := by
  rw [save_grid_to_file, ← hlen, List.take_length]
  congr 1
  apply List.map_congr_left
  intro row hrow
  rw [cstr_bytes_eq_self row (halpha row hrow)]

theorem import_go_save :
    ∀ (g target : Grid) (C : Nat), C ≤ 1022 → g.length = target.length →
      (∀ row ∈ g, row.length = C ∧ ∀ ch ∈ row, ch = '#' ∨ ch = '-') →
      import_go C g.length target ((g.map (fun row => row ++ ['\n'])).flatten) = g := by
  intro g
  induction g with
  | nil =>
    intro target C _ hlen _
    have : target = [] := List.eq_nil_of_length_eq_zero hlen.symm
    subst this
    rfl
  | cons row grest ih =>
    intro target C hC hlen halpha
    cases target with
    | nil => simp at hlen
    | cons trow trest =>
      obtain ⟨hrowlen, hrowalpha⟩ := halpha row (List.mem_cons_self ..)
      have hnl : '\n' ∉ row := by
        intro hmem
        rcases hrowalpha _ hmem with h | h <;> simp at h
      have hconteq : (((row :: grest).map (fun r2 => r2 ++ ['\n'])).flatten : List Char) =
          row ++ '\n' :: (grest.map (fun r2 => r2 ++ ['\n'])).flatten := by
        simp
      have hne : row ++ '\n' :: (grest.map (fun r2 => r2 ++ ['\n'])).flatten ≠ [] := by
        simp
      rw [List.length_cons, hconteq, import_go, if_neg hne]
      simp only [fgets_split_line row 1023 _ hnl (by omega), strip_newline_concat,
        parse_row_eq_self C row hrowlen hrowalpha]
      congr 1
      exact ih trest C hC (by simpa using hlen)
        (fun r2 h2 => halpha r2 (List.mem_cons_of_mem _ h2))

/-- C2 (amended): the snapshot round-trip is the identity whenever the
loading grid's dimensions equal the saved grid's and each saved line fits
the loader's 1024-byte `fgets` buffer, i.e. `C ≤ 1022`.  The claim as
stated, for every `C`, fails at `C = 1023` (see
`save_load_roundtrip_fails_wide`). -/
theorem save_load_roundtrip (R C : Nat) (g target : Grid) (hC : C ≤ 1022)
    (hg : wf R C g) (ht : dims target R C) :
    (import_grid_from_file R C target (some (save_grid_to_file R g))).1 = g := by
  obtain ⟨⟨hlen, hrows⟩, halpha⟩ := hg
  simp only [import_grid_from_file]
  rw [save_grid_to_file_eq R g hlen halpha, ← hlen]
  exact import_go_save g target C hC (by rw [hlen, ht.1]) (fun row h => ⟨hrows row h, halpha row h⟩)

/-- Witness for `save_load_roundtrip` on a one-cell alive grid. -/
theorem save_load_roundtrip_witness :
    (import_grid_from_file 1 1 [['-']] (some (save_grid_to_file 1 [['#']]))).1 = [['#']] :=
  save_load_roundtrip 1 1 [['#']] [['-']] (by decide) (by decide) (by decide)

/-- The grid refuting the unrestricted round-trip claim: 2 rows of 1023
cells each, alive only at `(1, 0)`. -/
def wide_grid : Grid := [List.replicate 1023 '-', '#' :: List.replicate 1022 '-']

/-- C2 counterexample: at `C = 1023` a saved line no longer fits the
loader's 1024-byte `fgets` buffer (1023 characters plus the NUL), so the
first read consumes the whole first row but not its newline, the second
read sees only that leftover newline, and row 1 of the reload comes out
all dead; reloading the save of `wide_grid` into an all-dead grid of the
same 2-by-1023 dimensions does not reproduce `wide_grid`. -/
theorem save_load_roundtrip_fails_wide :
    (import_grid_from_file 2 1023 (init_grid 2 1023)
        (some (save_grid_to_file 2 wide_grid))).1 ≠ wide_grid := by
  have halpha0 : ∀ ch ∈ List.replicate 1023 '-', ch = '#' ∨ ch = '-' :=
    fun ch h => Or.inr (List.eq_of_mem_replicate h)
  have halpha1 : ∀ ch ∈ ('#' :: List.replicate 1022 '-' : List Char), ch = '#' ∨ ch = '-' := by
    intro ch h
    rcases List.mem_cons.mp h with h | h
    · exact Or.inl h
    · exact Or.inr (List.eq_of_mem_replicate h)
  have hnl0 : '\n' ∉ List.replicate 1023 '-' := by
    intro h
    have := List.eq_of_mem_replicate h
    simp at this
  have hsave : save_grid_to_file 2 wide_grid =
      List.replicate 1023 '-' ++ '\n' :: (('#' :: List.replicate 1022 '-') ++ ['\n']) := by
    rw [save_grid_to_file_eq 2 wide_grid rfl
      (by
        intro row hrow
        simp only [wide_grid, List.mem_cons, List.not_mem_nil, or_false] at hrow
        rcases hrow with h | h
        · exact h ▸ halpha0
        · exact h ▸ halpha1)]
    simp only [wide_grid, List.map_cons, List.map_nil, List.flatten_cons, List.flatten_nil,
      List.append_nil, List.append_assoc, List.singleton_append]
  have hlen0 : (List.replicate 1023 '-' : List Char).length = 1023 :=
    List.length_replicate 1023 '-'
  have hfgets1 : fgets_split 1023
      (List.replicate 1023 '-' ++ '\n' :: (('#' :: List.replicate 1022 '-') ++ ['\n'])) =
      (List.replicate 1023 '-', '\n' :: (('#' :: List.replicate 1022 '-') ++ ['\n'])) := by
    have := fgets_split_exact (List.replicate 1023 '-')
      ('\n' :: (('#' :: List.replicate 1022 '-') ++ ['\n'])) hnl0
    rwa [hlen0] at this
  have hnonnil : List.replicate 1023 '-' ++
      '\n' :: (('#' :: List.replicate 1022 '-') ++ ['\n']) ≠ [] := by
    intro hx
    have hlx := congrArg List.length hx
    rw [List.length_append] at hlx
    simp only [List.length_nil, List.length_cons] at hlx
    omega
  have himp : (import_grid_from_file 2 1023 (init_grid 2 1023)
      (some (save_grid_to_file 2 wide_grid))).1 =
      [List.replicate 1023 '-', List.replicate 1023 '-'] := by
    simp only [import_grid_from_file, hsave]
    rw [show init_grid 2 1023 =
      [List.replicate 1023 '-', List.replicate 1023 '-'] from rfl]
    rw [show (2 : Nat) = 1 + 1 from rfl, import_go, if_neg hnonnil]
    simp only [hfgets1]
    rw [strip_newline_of_not_mem _ hnl0, parse_row_eq_self 1023 _ hlen0 halpha0]
    rw [import_go, if_neg (by intro hx; exact List.noConfusion hx)]
    simp only [fgets_split_newline 1023 _ (by omega)]
    rw [show strip_newline ['\n'] = [] from rfl, parse_row_nil]
    rfl
  rw [himp]
  intro h
  have h2 : some (List.replicate 1023 '-') = some ('#' :: List.replicate 1022 '-') := by
    have := congrArg (fun l : Grid => l[1]?) h
    simpa only [wide_grid, List.getElem?_cons_succ, List.getElem?_cons_zero] using this
  rw [Option.some_inj] at h2
  have h3 := congrArg (fun l : List Char => l[0]?) h2
  simp only [List.getElem?_replicate, List.getElem?_cons_zero] at h3
  rw [if_pos (by omega)] at h3
  exact absurd h3 (by decide)

/-! ### Unread rows on import -/

theorem import_go_stable (C : Nat) :
    ∀ (fuel : Nat) (g : Grid) (content : List Char) (i : Nat),
      consumed_lines fuel content ≤ i →
      (import_go C fuel g content)[i]? = g[i]? := by
  intro fuel
  induction fuel with
  | zero => intro g content i _; rfl
  | succ n ih =>
    intro g content i hi
    cases g with
    | nil => simp [import_go]
    | cons row rest =>
      by_cases hc : content = []
      · rw [import_go, if_pos hc]
      · rw [import_go, if_neg hc]
        have hcons : consumed_lines (n + 1) content =
            consumed_lines n (fgets_split 1023 content).2 + 1 := by
          cases content with
          | nil => exact absurd rfl hc
          | cons a t => rfl
        rw [hcons] at hi
        cases i with
        | zero => omega
        | succ i2 =>
          simp only [List.getElem?_cons_succ]
          exact ih rest _ i2 (by omega)

/-- C3 (amended): rows at and beyond the lines read are left unmodified —
the loop exits on the NULL `fgets` — so they are dead whenever the loading
grid was dead there, as with the grid the program loads into, which is
freshly created all-dead.  The original claim's "regardless of the loading
grid's prior contents" fails (see `import_keeps_stale_rows`). -/
theorem import_unread_rows_stay_dead (R C : Nat) (g : Grid) (content : List Char)
    (hdead : ∀ r2 c2 : Nat, r2 < R → c2 < C → readCell g r2 c2 = some '-')
    (r c : Nat) (hr : r < R) (hc : c < C)
    (hbeyond : consumed_lines R content ≤ r) :
    readCell ((import_grid_from_file R C g (some content)).1) r c = some '-' := by
  simp only [import_grid_from_file]
  rw [readCell, import_go_stable C R g content r hbeyond]
  exact hdead r c hr hc

/-- Witness for `import_unread_rows_stay_dead`: a one-line file loaded
into a fresh 2-by-1 grid leaves row 1 dead. -/
theorem import_unread_rows_stay_dead_witness :
    readCell ((import_grid_from_file 2 1 (init_grid 2 1) (some ['\n'])).1) 1 0 = some '-' :=
  import_unread_rows_stay_dead 2 1 (init_grid 2 1) ['\n']
    (fun r2 c2 hr2 hc2 => readCell_init 2 1 r2 c2 hr2 hc2)
    1 0 (by decide) (by decide) (by decide)

/-- The prior grid refuting the original C3 claim: a 5-by-5 grid, dead
everywhere except cell `(4, 4)`. -/
def stale_grid : Grid :=
  [List.replicate 5 '-', List.replicate 5 '-', List.replicate 5 '-',
   List.replicate 5 '-', ['-', '-', '-', '-', '#']]

/-- C3 counterexample: the file is the saved 3-by-3 blinker — three lines,
fewer than five — yet after loading it into the 5-by-5 `stale_grid`, cell
`(4, 4)`, outside rows 0-2 and columns 0-2, is still alive rather than
dead: the `break` on NULL leaves the unread rows' prior contents in
place. -/
theorem import_keeps_stale_rows :
    readCell ((import_grid_from_file 5 5 stale_grid
        (some (save_grid_to_file 3 [['-', '-', '-'], ['#', '#', '#'], ['-', '-', '-']]))).1) 4 4 =
      some '#' ∧
    readCell ((import_grid_from_file 5 5 stale_grid
        (some (save_grid_to_file 3 [['-', '-', '-'], ['#', '#', '#'], ['-', '-', '-']]))).1) 4 4 ≠
      some '-' := by
  constructor <;> decide

/-! ### Line structure of a save -/

theorem split_lines_append (row : List Char) (rest : List Char) (h : '\n' ∉ row) :
    split_lines (row ++ '\n' :: rest) = row :: split_lines rest := by
  induction row with
  | nil => simp [split_lines]
  | cons ch t ih =>
    have hch : ch ≠ '\n' := fun h2 => h (by simp [h2])
    have iht := ih (fun h2 => h (List.mem_cons_of_mem _ h2))
    simp only [List.cons_append, split_lines, if_neg hch, List.append_eq, iht]

theorem split_lines_flatten :
    ∀ (g : Grid), (∀ row ∈ g, ∀ ch ∈ row, ch = '#' ∨ ch = '-') →
      split_lines ((g.map (fun row => row ++ ['\n'])).flatten) = g := by
  intro g
  induction g with
  | nil => intro _; rfl
  | cons row rest ih =>
    intro h
    have hnl : '\n' ∉ row := by
      intro hmem
      rcases h row (List.mem_cons_self ..) _ hmem with h2 | h2 <;> simp at h2
    have heq : (((row :: rest).map (fun r2 => r2 ++ ['\n'])).flatten : List Char) =
        row ++ '\n' :: (rest.map (fun r2 => r2 ++ ['\n'])).flatten := by
      simp only [List.map_cons, List.flatten_cons, List.append_assoc, List.singleton_append]
    rw [heq, split_lines_append _ _ hnl,
      ih (fun r2 h2 => h r2 (List.mem_cons_of_mem _ h2))]

theorem count_newline_flatten :
    ∀ (g : Grid), (∀ row ∈ g, ∀ ch ∈ row, ch = '#' ∨ ch = '-') →
      ((g.map (fun row => row ++ ['\n'])).flatten).count '\n' = g.length := by
  intro g
  induction g with
  | nil => intro _; rfl
  | cons row rest ih =>
    intro h
    have hnl : '\n' ∉ row := by
      intro hmem
      rcases h row (List.mem_cons_self ..) _ hmem with h2 | h2 <;> simp at h2
    have heq : (((row :: rest).map (fun r2 => r2 ++ ['\n'])).flatten : List Char) =
        row ++ '\n' :: (rest.map (fun r2 => r2 ++ ['\n'])).flatten := by
      simp only [List.map_cons, List.flatten_cons, List.append_assoc, List.singleton_append]
    rw [heq, List.count_append, List.count_cons_self,
      ih (fun r2 h2 => h r2 (List.mem_cons_of_mem _ h2)),
      List.count_eq_zero.mpr hnl]
    simp [List.length_cons, Nat.add_comm]

/-- C4: a successful save writes exactly `R` newline-terminated lines with
no header, trailer or metadata: splitting the written bytes at newlines
returns precisely the `R` grid rows, the byte stream holds exactly `R`
newlines, and each line (newline excluded) has exactly `C` characters. -/
theorem save_writes_R_lines (R C : Nat) (g : Grid) (hg : wf R C g) :
    split_lines (save_grid_to_file R g) = g ∧
    (save_grid_to_file R g).count '\n' = R ∧
    (split_lines (save_grid_to_file R g)).length = R ∧
    ∀ ln2 ∈ split_lines (save_grid_to_file R g), ln2.length = C := by
  obtain ⟨⟨hlen, hrows⟩, halpha⟩ := hg
  have hsave := save_grid_to_file_eq R g hlen halpha
  have hsplit : split_lines (save_grid_to_file R g) = g := by
    rw [hsave, split_lines_flatten g halpha]
  refine ⟨hsplit, ?_, ?_, ?_⟩
  · rw [hsave, count_newline_flatten g halpha, hlen]
  · rw [hsplit, hlen]
  · intro ln2 h2
    rw [hsplit] at h2
    exact hrows ln2 h2

/-- Witness for `save_writes_R_lines` on a 1-by-2 grid. -/
theorem save_writes_R_lines_witness :
    split_lines (save_grid_to_file 1 [['#', '-']]) = [['#', '-']] ∧
    (save_grid_to_file 1 [['#', '-']]).count '\n' = 1 ∧
    (split_lines (save_grid_to_file 1 [['#', '-']])).length = 1 ∧
    ∀ ln2 ∈ split_lines (save_grid_to_file 1 [['#', '-']]), ln2.length = 2 :=
  save_writes_R_lines 1 2 [['#', '-']] (by decide)
